import Mathlib

/-!
A verification development for the retrowin32 Win32 ABI shim layer.

The definitions below are a shallow embedding of the Rust sources
`win32/src/winapi.rs` (the kernel32 address-space allocator and the
kernel32 stdcall shims) and `win32/src/winapi/ddraw/ddraw7.rs` (the
IDirectDraw7 / IDirectDrawSurface7 methods).  Guest machine integers
(`u32`) are modelled as `Nat` with explicit reduction modulo `2^32`
at the operations where the Rust code performs wrapping `u32`
arithmetic (release-mode semantics).
-/

namespace Retrowin32

/-! ## u32 arithmetic helpers -/

/-- The value `2^32`, the size of the `u32` value space. -/
def U32LIM : Nat := 4294967296

/-- Reduce a natural to the `u32` range (wrapping semantics). -/
def wrap (n : Nat) : Nat := n % U32LIM

/-- Wrapping `u32` subtraction `a - b` (two's-complement wraparound on
underflow, as in release-mode Rust). -/
def wsub (a b : Nat) : Nat := (a + U32LIM - b % U32LIM) % U32LIM

/-- The Rust expression `x + (0x1000 - 1) & !(0x1000 - 1)` on `u32`
(`+` binds tighter than `&`): add `0xFFF` with wraparound, then clear
the low 12 bits.  Clearing the low 12 bits of `y` is `y - y % 0x1000`. -/
def alignPage (x : Nat) : Nat :=
  wrap (x + 0xFFF) - wrap (x + 0xFFF) % 0x1000

/-- Rounding up to a 4 KiB boundary in plain natural arithmetic; this is
the "rounded up to page boundary" of the specification text. -/
def alignPageNat (x : Nat) : Nat := ((x + 0xFFF) / 0x1000) * 0x1000

/-! ## kernel32: mappings and the address-space allocator
(`win32/src/winapi.rs`, `mod kernel32`) -/

/-- The `kernel32::Mapping` record. -/
structure Mapping where
  addr : Nat
  size : Nat
  desc : String
deriving Repr, DecidableEq

/-- Modelled from the spec: `x86::NULL_POINTER_REGION_SIZE` lives in the
`x86` crate, which is not among the sources; the spec only says a
null-guard mapping of this size occupies `[0, size)` at
initialization.  One guard page is used as the concrete value. -/
def NULL_POINTER_REGION_SIZE : Nat := 0x1000

/-- The `kernel32::State` record (the fields the allocator and shims touch). -/
structure K32State where
  image_base : Nat
  teb : Nat
  mappings : List Mapping
deriving Repr, DecidableEq

/-- The constructor `kernel32::State::new()`. -/
def K32State.new : K32State :=
  { image_base := 0
    teb := 0
    mappings := [{ addr := 0, size := NULL_POINTER_REGION_SIZE, desc := "avoid null pointers" }] }

/-- Transcribes `kernel32::State::add_mapping`, acting on the mapping list.
The Rust code finds `pos`, the index of the first element whose `addr`
exceeds the new mapping's `addr` (`position(..).unwrap_or(len)`),
asserts that the neighbours at `pos - 1` and `pos` do not overlap the
new mapping, and splices it in at `pos` (`Vec::insert`).  A failed
assert aborts: `none`. -/
def addMappingList (m : Mapping) (l : List Mapping) : Option (List Mapping) :=
  let pos := l.findIdx fun x => decide (m.addr < x.addr)
  let before := l.take pos
  let after := l.drop pos
  let prevOk : Bool :=   -- `if pos > 0 { assert!(prev.addr + prev.size <= mapping.addr) }`
    match before.getLast? with
    | some prev => decide (wrap (prev.addr + prev.size) ≤ m.addr)
    | none => true
  let nextOk : Bool :=   -- `if pos < len { assert!(mapping.addr + mapping.size <= next.addr) }`
    match after.head? with
    | some next => decide (wrap (m.addr + m.size) ≤ next.addr)
    | none => true
  if prevOk && nextOk then some (before ++ m :: after) else none

def K32State.add_mapping (s : K32State) (m : Mapping) : Option K32State :=
  (addMappingList m s.mappings).map fun l => { s with mappings := l }

/-- The scan loop of `kernel32::State::alloc`: `e` is the running `end`
variable (page-aligned end of the previous mapping, `0` initially);
`space` is the `u32` difference `mapping.addr - end`; on `space > size`
the new mapping is spliced in before the current one and returned.
Falling off the list is the `panic!("alloc of .. failed")`: `none`. -/
def allocGo (size : Nat) (d : String) : Nat → List Mapping → Option (Mapping × List Mapping)
  | _, [] => none
  | e, m :: rest =>
    if size < wsub m.addr e then
      some ({ addr := e, size := size, desc := d }, { addr := e, size := size, desc := d } :: m :: rest)
    else
      (allocGo size d (alignPage (m.addr + m.size)) rest).map fun r => (r.1, m :: r.2)

/-- Transcribes `kernel32::State::alloc`. -/
def K32State.alloc (s : K32State) (size : Nat) (d : String) : Option (Mapping × K32State) :=
  (allocGo size d 0 s.mappings).map fun r => (r.1, { s with mappings := r.2 })

/-- The allocation scan as the specification words it: the gap between
the previous mapping's end rounded up to a 4 KiB boundary and the next
mapping's start, in plain natural arithmetic (no gap when the rounded
end reaches past the next start); the new mapping is spliced at the
aligned start of the first gap strictly greater than `size`. -/
def allocSpecGo (size : Nat) (d : String) : Nat → List Mapping → Option (Mapping × List Mapping)
  | _, [] => none
  | e, m :: rest =>
    if size < m.addr - e then
      some ({ addr := e, size := size, desc := d }, { addr := e, size := size, desc := d } :: m :: rest)
    else
      (allocSpecGo size d (alignPageNat (m.addr + m.size)) rest).map fun r => (r.1, m :: r.2)

/-- Restates `alloc` as described by the specification sentence. -/
def K32State.allocSpec (s : K32State) (size : Nat) (d : String) : Option (Mapping × K32State) :=
  (allocSpecGo size d 0 s.mappings).map fun r => (r.1, { s with mappings := r.2 })

/-- Adjacent-mapping order: the first extent ends at or before the
second begins.  Chaining this along the list is sortedness plus
pairwise disjointness. -/
def mapLE (a b : Mapping) : Prop := a.addr + a.size ≤ b.addr

instance : DecidableRel mapLE := fun a b =>
  inferInstanceAs (Decidable (a.addr + a.size ≤ b.addr))

/-- A `Decidable` instance for `List.Chain` that evaluates by
structural recursion (the library one is opaque to kernel
reduction). -/
instance instDecChain {α : Type} (r : α → α → Prop) [DecidableRel r] :
    ∀ (a : α) (l : List α), Decidable (List.Chain r a l)
  | _, [] => isTrue List.Chain.nil
  | a, b :: t =>
    match inferInstanceAs (Decidable (r a b)), instDecChain r b t with
    | isTrue h1, isTrue h2 => isTrue (List.Chain.cons h1 h2)
    | isFalse h1, _ => isFalse fun hc => h1 (List.chain_cons.mp hc).1
    | _, isFalse h2 => isFalse fun hc => h2 (List.chain_cons.mp hc).2

instance instDecChainAux {α : Type} (r : α → α → Prop) [DecidableRel r] :
    ∀ l : List α, Decidable (List.Chain' r l)
  | [] => isTrue True.intro
  | a :: t => instDecChain r a t

/-- A mapping whose base is 4 KiB aligned and whose extent stays inside
the `u32` address space. -/
def mapGood (m : Mapping) : Prop := m.addr % 0x1000 = 0 ∧ m.addr + m.size < U32LIM

instance (m : Mapping) : Decidable (mapGood m) :=
  inferInstanceAs (Decidable (m.addr % 0x1000 = 0 ∧ m.addr + m.size < U32LIM))

/-- The data-model invariant on the mapping list (§3 of the spec):
sorted by address with pairwise-disjoint extents, every base 4 KiB
aligned, every extent within the `u32` address space. -/
def mappingsWF (l : List Mapping) : Prop :=
  l.Chain' mapLE ∧ ∀ m ∈ l, mapGood m

instance (l : List Mapping) : Decidable (mappingsWF l) :=
  inferInstanceAs (Decidable (l.Chain' mapLE ∧ ∀ m ∈ l, mapGood m))

/-! ### Unfolding equations for `addMappingList` -/

/-! ### The allocation scan -/

/-! ### Sequences of allocator operations -/

/-- The two public mutations of the mapping list. -/
inductive K32Op where
  | add (m : Mapping)
  | allocate (size : Nat) (d : String)
deriving Repr, DecidableEq

def K32State.step (s : K32State) : K32Op → Option K32State
  | .add m => s.add_mapping m
  | .allocate size d => (K32State.alloc s size d).map (·.2)

def K32State.run (s : K32State) : List K32Op → Option K32State
  | [] => some s
  | op :: ops => (s.step op).bind fun s' => s'.run ops

/-- An operation whose argument respects the data model: mappings handed
to `add_mapping` are page-aligned and in range. -/
def opGood : K32Op → Prop
  | .add m => mapGood m
  | .allocate _ _ => True

instance (op : K32Op) : Decidable (opGood op) :=
  match op with
  | .add m => inferInstanceAs (Decidable (mapGood m))
  | .allocate _ _ => isTrue True.intro

instance : Trans mapLE mapLE mapLE where
  trans hab hbc := by unfold mapLE at *; omega

instance : IsTrans Mapping mapLE where
  trans a b c hab hbc := by unfold mapLE at *; omega

/-! ## The x86 shim machine (`win32/src/winapi.rs` shims)

The shims only consume the interpreter primitives `pop()`, register
access (`eax`), the flat byte memory, and the host backend, so the
machine is modelled by exactly those pieces.  The pending stdcall
arguments are the front of `stack`, first-popped first. -/

/-- The host backend, as consumed by the kernel32 shims: a log of the
byte buffers passed to `host.write`, and the byte count the host
reports for a given buffer (`write` returns "bytes actually written"). -/
structure Host where
  writes : List (List Nat)
  writeResult : List Nat → Nat

structure Regs where
  eax : Nat
deriving Repr, DecidableEq

structure X86 where
  stack : List Nat
  mem : List Nat
  state : K32State
  regs : Regs
  host : Host

/-- The interpreter primitive `x86.pop()`: take the next 32-bit argument
off the guest stack. -/
def X86.pop (x : X86) : Nat × X86 :=
  (x.stack.headD 0, { x with stack := x.stack.tail })

/-- The sentinel stdout pseudo-handle `STDOUT_HFILE`. -/
def STDOUT_HFILE : Nat := 0xF11E0100

/-- Modelled from the spec: `x86.write_u32(addr, value)` is the `x86`
crate's typed store, which is not among the sources; the spec says
records are written as packed little-endian bytes. -/
def writeU32 (mem : List Nat) (a v : Nat) : List Nat :=
  mem.take a ++ [v % 256, v / 256 % 256, v / 65536 % 256, v / 16777216 % 256]
    ++ mem.drop (a + 4)

/-- Modelled from the spec: little-endian read-back of a 32-bit value,
the inverse view of `writeU32`, for stating properties. -/
def readU32 (mem : List Nat) (a : Nat) : Nat :=
  mem.getD a 0 + 256 * mem.getD (a + 1) 0 + 65536 * mem.getD (a + 2) 0
    + 16777216 * mem.getD (a + 3) 0

/-- Transcribes `kernel32::GetModuleHandleA`: pop the name; a non-null name is
logged as unimplemented (no machine effect); `eax` is assigned the
loaded image base. -/
def GetModuleHandleA (x : X86) : X86 :=
  let p := x.pop
  { p.2 with regs := { p.2.regs with eax := p.2.state.image_base } }

/-- Transcribes `kernel32::WriteFile`: pop the five stdcall arguments; assert the
handle is the stdout sentinel and the overlapped pointer is null; slice
`mem[buf .. buf+n]` (a fatal abort if out of range, like the Rust slice
indexing); pass it to the host writer; store the reported count at
`lpNumberOfBytesWritten`; set `eax = 1`. -/
def WriteFile (x : X86) : Option X86 :=
  let p1 := x.pop
  let hFile := p1.1
  let p2 := p1.2.pop
  let lpBuffer := p2.1
  let p3 := p2.2.pop
  let nBytes := p3.1
  let p4 := p3.2.pop
  let lpNumberOfBytesWritten := p4.1
  let p5 := p4.2.pop
  let lpOverlapped := p5.1
  let x5 := p5.2
  if hFile ≠ STDOUT_HFILE then none
  else if lpOverlapped ≠ 0 then none
  else if lpBuffer + nBytes ≤ x5.mem.length then
    let buf := (x5.mem.drop lpBuffer).take nBytes
    let n := x5.host.writeResult buf
    some { x5 with
      mem := writeU32 x5.mem lpNumberOfBytesWritten (wrap n)
      host := { x5.host with writes := x5.host.writes ++ [buf] }
      regs := { x5.regs with eax := 1 } }
  else none

/-- Transcribes `kernel32::VirtualAlloc`: pop the four arguments; assert
`lpAddress == 0` and `flAllocationType == MEM_COMMIT (0x1000)`;
allocate a mapping of `dwSize` bytes (the size is used as-is, not
page-rounded); set `eax` to the new mapping's base.  The allocator's
`panic!` propagates as `none`. -/
def VirtualAlloc (x : X86) : Option X86 :=
  let p1 := x.pop
  let lpAddress := p1.1
  let p2 := p1.2.pop
  let dwSize := p2.1
  let p3 := p2.2.pop
  let flAllocationType := p3.1
  let p4 := p3.2.pop
  let x4 := p4.2
  if lpAddress ≠ 0 then none
  else if flAllocationType ≠ 0x1000 then none
  else
    match K32State.alloc x4.state dwSize "VirtualAlloc" with
    | none => none
    | some r => some { x4 with state := r.2, regs := { x4.regs with eax := r.1.addr } }

/-! ## DirectDraw7 (`win32/src/winapi/ddraw/ddraw7.rs`)

Guest struct layouts and the DirectDraw constants live in the ddraw
`types` module, which is not among the sources; they are modelled from
the spec ("layouts bit-exact per the public SDK"). -/

def DD_OK : Nat := 0

/-- Modelled from the spec: `DDERR_GENERIC` (the Win32 `E_FAIL` value);
the ddraw constants module is not among the sources. -/
def DDERR_GENERIC : Nat := 0x80004005

def DDSD_HEIGHT : Nat := 0x2

def DDSD_WIDTH : Nat := 0x4

def DDSD_LPSURFACE : Nat := 0x800

/-- Modelled from the spec: `size_of::<DDSURFACEDESC2>()`, 128 bytes per §6. -/
def DDSURFACEDESC2_SIZE : Nat := 128

/-- Modelled from the spec: `size_of::<DDPIXELFORMAT>()`, 32 bytes per §6. -/
def DDPIXELFORMAT_SIZE : Nat := 32

structure DDPIXELFORMAT where
  dwSize : Nat
  dwFlags : Nat
  dwFourCC : Nat
  dwRGBBitCount : Nat
  dwRBitMask : Nat
  dwGBitMask : Nat
  dwBBitMask : Nat
  dwRGBAlphaBitMask : Nat
deriving Repr, DecidableEq

/-- The fields of `DDSURFACEDESC2` the modelled methods read or write. -/
structure DDSURFACEDESC2 where
  dwSize : Nat
  dwFlags : Nat
  dwWidth : Nat
  dwHeight : Nat
  lPitch_dwLinearSize : Nat
  lpSurface : Nat
  ddpfPixelFormat : DDPIXELFORMAT
deriving Repr, DecidableEq

/-- The all-zero record, as left by `desc.clear_struct()`. -/
def DDPIXELFORMAT.clear : DDPIXELFORMAT :=
  { dwSize := 0, dwFlags := 0, dwFourCC := 0, dwRGBBitCount := 0,
    dwRBitMask := 0, dwGBitMask := 0, dwBBitMask := 0, dwRGBAlphaBitMask := 0 }

def DDSURFACEDESC2.clear : DDSURFACEDESC2 :=
  { dwSize := 0, dwFlags := 0, dwWidth := 0, dwHeight := 0,
    lPitch_dwLinearSize := 0, lpSurface := 0, ddpfPixelFormat := DDPIXELFORMAT.clear }

structure RECT where
  left : Nat
  top : Nat
  right : Nat
  bottom : Nat
deriving Repr, DecidableEq

structure PALETTEENTRY where
  peRed : Nat
  peGreen : Nat
  peBlue : Nat
  peFlags : Nat
deriving Repr, DecidableEq

/-- The `ddraw::Surface` host-side surface record.  `host` is the host
surface handle (an opaque identifier tagging host calls such as
`write_pixels`). -/
structure Surface where
  host : Nat
  width : Nat
  height : Nat
  palette : Nat
  pixels : Nat
deriving Repr, DecidableEq

/-- In-place update of a handle-table entry (`HashMap::get_mut`
followed by assignment). -/
def setAssoc {α : Type} (l : List (Nat × α)) (k : Nat) (v : α) : List (Nat × α) :=
  l.map fun p => if p.1 = k then (k, v) else p

/-- Modelled from the spec: the ddraw scratch heap implementation is not
among the sources; §4.2 only requires 4-byte aligned results and memory
untouched between `alloc` and the matching `free`.  A bump allocator
over a list of live blocks satisfies this. -/
structure Heap where
  base : Nat
  used : List (Nat × Nat)
deriving Repr, DecidableEq

def align4 (n : Nat) : Nat := ((n + 3) / 4) * 4

def Heap.hiWater (h : Heap) : Nat :=
  h.used.foldr (fun p acc => max (p.1 + p.2) acc) h.base

def Heap.alloc (h : Heap) (n : Nat) : Nat × Heap :=
  let a := align4 h.hiWater
  (a, { h with used := (a, n) :: h.used })

def Heap.free (h : Heap) (a : Nat) : Heap :=
  { h with used := h.used.eraseP fun p => p.1 == a }

/-- The `ddraw::State` record: the fields the modelled methods touch. -/
structure DdrawState where
  hwnd : Nat
  width : Nat
  height : Nat
  surfaces : List (Nat × Surface)
  palettes : List (Nat × List PALETTEENTRY)
  palette_hack : Nat
  heap : Heap
deriving Repr, DecidableEq

/-- Transcribes `IDirectDrawSurface7::GetSurfaceDesc`: look up the surface
(`unwrap`: `none` on a stale handle), validate `desc.dwSize`, fill
`dwWidth`/`dwHeight` for the `DDSD` flags requested while clearing them
from a local copy of the flag set (the guest-visible `dwFlags` is not
written back), log any remaining flags, and return `DDERR_GENERIC`. -/
def GetSurfaceDesc (surfaces : List (Nat × Surface)) (this : Nat)
    (lpDesc : Option DDSURFACEDESC2) : Option (DDSURFACEDESC2 × Nat) :=
  match surfaces.lookup this with
  | none => none
  | some surf =>
    match lpDesc with
    | none => none
    | some desc0 =>
      if desc0.dwSize ≠ DDSURFACEDESC2_SIZE then none
      else
        let flags0 := desc0.dwFlags
        let w : Bool := flags0 &&& DDSD_WIDTH == DDSD_WIDTH
        let desc1 := if w then { desc0 with dwWidth := surf.width } else desc0
        let flags1 := if w then flags0 - (flags0 &&& DDSD_WIDTH) else flags0
        let h : Bool := flags1 &&& DDSD_HEIGHT == DDSD_HEIGHT
        let desc2 := if h then { desc1 with dwHeight := surf.height } else desc1
        -- `if !flags.is_empty() { log::warn!(..) }`: log only
        some (desc2, DDERR_GENERIC)

/-- Transcribes `IDirectDrawSurface7::Lock`: a non-null rect is `todo!()`; on first
lock allocate `width * height * bytes_per_pixel` (with
`bytes_per_pixel = 1`) from the ddraw heap into `surf.pixels`; fill
`desc.dwFlags = DDSD::LPSURFACE`, `desc.lpSurface`, `desc.lPitch`.
Both products are `u32` multiplications and wrap (release-mode
semantics), hence the `wrap` around each `*`. -/
def Lock (st : DdrawState) (this : Nat) (rect : Option RECT)
    (lpDesc : Option DDSURFACEDESC2) (_flags : Nat) :
    Option (DdrawState × DDSURFACEDESC2 × Nat) :=
  match rect with
  | some _ => none
  | none =>
    match lpDesc with
    | none => none
    | some desc =>
      match st.surfaces.lookup this with
      | none => none
      | some surf =>
        let bytes_per_pixel := 1
        let r :=
          if surf.pixels = 0 then
            st.heap.alloc (wrap (wrap (surf.width * surf.height) * bytes_per_pixel))
          else (surf.pixels, st.heap)
        let surf' := { surf with pixels := r.1 }
        let st' := { st with surfaces := setAssoc st.surfaces this surf', heap := r.2 }
        let desc' := { desc with
          dwFlags := DDSD_LPSURFACE
          lpSurface := r.1
          lPitch_dwLinearSize := wrap (surf.width * bytes_per_pixel) }
        some (st', desc', DD_OK)

/-- Transcribes `IDirectDrawSurface7::SetPalette`: store the palette on the surface
record and as the subsystem-wide `palette_hack`. -/
def SetPalette (st : DdrawState) (this palette : Nat) : Option (DdrawState × Nat) :=
  match st.surfaces.lookup this with
  | none => none
  | some surf =>
    let st' := { st with
      surfaces := setAssoc st.surfaces this { surf with palette := palette }
      palette_hack := palette }
    some (st', DD_OK)

/-- A ddraw machine: subsystem state, the flat guest memory holding the
pixel buffers, and the log of `host.write_pixels` calls, each tagged
with the host surface handle and carrying the RGBA quadruples. -/
structure DDMachine where
  ddraw : DdrawState
  mem : List Nat
  pixelWrites : List (Nat × List (Nat × Nat × Nat × Nat))
deriving Repr, DecidableEq

/-- Transcribes `IDirectDrawSurface7::Unlock`: fill a non-null rect with the full
surface; when the surface has a pixel buffer and a subsystem palette is
set (`palette_hack`), view `width * height` bytes at `surf.pixels`
(fatal if out of range, like `view_n`), expand each byte through the
palette to `[r, g, b, 255]`, and push to `host.write_pixels`. -/
def Unlock (mc : DDMachine) (this : Nat) (rect : Option RECT) :
    Option (DDMachine × Option RECT × Nat) :=
  match mc.ddraw.surfaces.lookup this with
  | none => none
  | some surf =>
    let rect' := rect.map fun _ =>
      { left := 0, top := 0, right := surf.width, bottom := surf.height : RECT }
    let phack := mc.ddraw.palette_hack
    if surf.pixels ≠ 0 ∧ phack ≠ 0 then
      let bytes_per_pixel := 1
      let n := wrap (wrap (surf.width * surf.height) * bytes_per_pixel)
      if surf.pixels + n ≤ mc.mem.length then
        match mc.ddraw.palettes.lookup phack with
        | none => none
        | some palette =>
          let pixels := (mc.mem.drop surf.pixels).take n
          let pixels32 := pixels.map fun i =>
            let p := palette.getD i { peRed := 0, peGreen := 0, peBlue := 0, peFlags := 0 }
            (p.peRed, p.peGreen, p.peBlue, 255)
          some ({ mc with pixelWrites := mc.pixelWrites ++ [(surf.host, pixels32)] },
            rect', DD_OK)
      else none
    else some (mc, rect', DD_OK)

/-- The observable outcome of `IDirectDraw7::EnumDisplayModes`: the
guest-callback invocations the async bridge performs (callback target
paired with its argument vector), the `DDSURFACEDESC2` record published into
guest memory at `desc_addr` for the callback, the final subsystem
state, and the return value.  The typed store into guest memory is
modelled by recording the published record; the guest callback itself
is modelled as an event. -/
structure EnumResult where
  calls : List (Nat × List Nat)
  published : DDSURFACEDESC2
  state : DdrawState
  ret : Nat
deriving Repr, DecidableEq

/-- Transcribes `IDirectDraw7::EnumDisplayModes`: a non-null `lpSurfaceDesc` filter
is `todo!()`; allocate a scratch `DDSURFACEDESC2` on the ddraw heap,
clear it, fill the hard-coded 320×200 8-bpp mode, invoke the guest
callback once with `(desc_addr, lpContext)`, free the scratch, return
`DD_OK`. -/
def EnumDisplayModes (st : DdrawState) (lpSurfaceDesc : Option DDSURFACEDESC2)
    (lpContext lpEnumCallback : Nat) : Option EnumResult :=
  match lpSurfaceDesc with
  | some _ => none
  | none =>
    let r := st.heap.alloc DDSURFACEDESC2_SIZE
    let desc_addr := r.1
    let pf : DDPIXELFORMAT :=
      { dwSize := DDPIXELFORMAT_SIZE, dwFlags := 0, dwFourCC := 0, dwRGBBitCount := 8,
        dwRBitMask := 0xFF000000, dwGBitMask := 0x00FF0000, dwBBitMask := 0x0000FF00,
        dwRGBAlphaBitMask := 0x000000FF }
    let desc := { DDSURFACEDESC2.clear with
      dwSize := DDSURFACEDESC2_SIZE
      dwWidth := 320
      dwHeight := 200
      ddpfPixelFormat := pf }
    let heap2 := r.2.free desc_addr
    some { calls := [(lpEnumCallback, [desc_addr, lpContext])], published := desc,
           state := { st with heap := heap2 }, ret := DD_OK }

/-- Concrete palettes and machines used by the scenario theorems. -/
def zeroEntry : PALETTEENTRY := { peRed := 0, peGreen := 0, peBlue := 0, peFlags := 0 }

/-- A 256-entry palette whose entry 7 is `(10, 20, 30)`. -/
def specPalette : List PALETTEENTRY :=
  List.replicate 7 zeroEntry
    ++ [{ peRed := 10, peGreen := 20, peBlue := 30, peFlags := 0 }]
    ++ List.replicate 248 zeroEntry

/-- A 256-entry palette with every entry `(1, 2, 3)`. -/
def constPalette : List PALETTEENTRY :=
  List.replicate 256 { peRed := 1, peGreen := 2, peBlue := 3, peFlags := 0 }

/-- A 4×1 surface whose pixel buffer sits at guest address 1. -/
def surfScenario : Surface := { host := 5, width := 4, height := 1, palette := 77, pixels := 1 }

def stScenario : DdrawState :=
  { hwnd := 0
    width := 0
    height := 0
    surfaces := [(1, surfScenario)]
    palettes := [(77, specPalette)]
    palette_hack := 77
    heap := { base := 0, used := [] } }

def mcScenario : DDMachine :=
  { ddraw := stScenario, mem := [9, 7, 7, 7, 7], pixelWrites := [] }

/-- A 1×1 surface carrying its own (per-surface) palette handle 99. -/
def surfOwn99 : Surface := { host := 5, width := 1, height := 1, palette := 99, pixels := 1 }

def surfSecond : Surface := { host := 6, width := 1, height := 1, palette := 0, pixels := 0 }

def stTwoSurfaces : DdrawState :=
  { hwnd := 0
    width := 0
    height := 0
    surfaces := [(1, surfOwn99), (2, surfSecond)]
    palettes := []
    palette_hack := 0
    heap := { base := 0, used := [] } }

/-- The state `stTwoSurfaces` after `SetPalette(surface 2, palette 77)`. -/
def stTwoAfter : DdrawState :=
  { hwnd := 0
    width := 0
    height := 0
    surfaces := [(1, surfOwn99),
      (2, { host := 6, width := 1, height := 1, palette := 77, pixels := 0 })]
    palettes := []
    palette_hack := 77
    heap := { base := 0, used := [] } }

def stHack77 : DdrawState :=
  { hwnd := 0
    width := 0
    height := 0
    surfaces := [(1, surfOwn99)]
    palettes := [(77, constPalette)]
    palette_hack := 77
    heap := { base := 0, used := [] } }

def mcHack77 : DDMachine := { ddraw := stHack77, mem := [0, 4], pixelWrites := [] }

/-- A registrable surface whose `u32` pixel-count product
`0x10000 * 0x10000` wraps to `0`. -/
def surfBig : Surface :=
  { host := 5, width := 0x10000, height := 0x10000, palette := 0, pixels := 0 }

def stBig : DdrawState :=
  { hwnd := 0
    width := 0
    height := 0
    surfaces := [(1, surfBig)]
    palettes := []
    palette_hack := 0
    heap := { base := 0x100, used := [] } }

/-- The overflowing surface again, locked (pixel buffer at address 1)
with the subsystem palette 77 set. -/
def surfBigLocked : Surface :=
  { host := 5, width := 0x10000, height := 0x10000, palette := 0, pixels := 1 }

def stBigLocked : DdrawState :=
  { hwnd := 0
    width := 0
    height := 0
    surfaces := [(1, surfBigLocked)]
    palettes := [(77, constPalette)]
    palette_hack := 77
    heap := { base := 0x100, used := [] } }

def mcBig : DDMachine := { ddraw := stBigLocked, mem := [0, 4], pixelWrites := [] }

/-! ## Theorems -/

theorem wrap_lt (n : Nat) : wrap n < U32LIM := Nat.mod_lt _ (by decide)

theorem wrap_eq_of_lt {n : Nat} (h : n < U32LIM) : wrap n = n := Nat.mod_eq_of_lt h

/-- Genuine subtraction: when `b ≤ a < 2^32` the wrapping subtraction is
the ordinary one. -/
theorem wsub_eq_sub {a b : Nat} (hba : b ≤ a) (ha : a < U32LIM) :
    wsub a b = a - b := by
  have hb : b < U32LIM := Nat.lt_of_le_of_lt hba ha
  unfold wsub U32LIM at *
  omega

theorem alignPageNat_le {x y : Nat} (hxy : x ≤ y) (hy : y % 0x1000 = 0) :
    alignPageNat x ≤ y := by
  unfold alignPageNat
  omega

theorem le_alignPageNat (x : Nat) : x ≤ alignPageNat x := by
  unfold alignPageNat
  omega

theorem alignPageNat_mod (x : Nat) : alignPageNat x % 0x1000 = 0 := by
  unfold alignPageNat
  omega

theorem alignPage_mod (x : Nat) : alignPage x % 0x1000 = 0 := by
  unfold alignPage
  omega

/-- In-range agreement: as long as the page rounding does not overflow
`u32`, the machine computation agrees with the mathematical rounding. -/
theorem alignPage_eq_nat {x : Nat} (h : x ≤ 0xFFFFF000) :
    alignPage x = alignPageNat x := by
  unfold alignPage alignPageNat wrap U32LIM
  omega

/-- Along a disjoint sorted chain, the head ends at or before every
later mapping starts. -/
theorem chain_mapLE_head {rest : List Mapping} :
    ∀ {m : Mapping}, List.Chain' mapLE (m :: rest) →
      ∀ b ∈ rest, m.addr + m.size ≤ b.addr := by
  induction rest with
  | nil => intro m _ b hb; cases hb
  | cons y u ih =>
    intro m h b hb
    rw [List.chain'_cons] at h
    rcases List.mem_cons.mp hb with rfl | hb
    · exact h.1
    · exact Nat.le_trans (Nat.le_trans h.1 (Nat.le_add_right _ _)) (ih h.2 b hb)

theorem addMappingList_nil (m : Mapping) : addMappingList m [] = some [m] := rfl

theorem addMappingList_cons_lt {m x : Mapping} {t : List Mapping} (hx : m.addr < x.addr) :
    addMappingList m (x :: t) =
      if wrap (m.addr + m.size) ≤ x.addr then some (m :: x :: t) else none := by
  unfold addMappingList
  simp [List.findIdx_cons, hx]

theorem addMappingList_cons_last {m x : Mapping} (hx : ¬ m.addr < x.addr) :
    addMappingList m [x] =
      if wrap (x.addr + x.size) ≤ m.addr then some [x, m] else none := by
  unfold addMappingList
  simp [List.findIdx_cons, hx]

theorem addMappingList_cons_mid {m x y : Mapping} {u : List Mapping}
    (hx : ¬ m.addr < x.addr) (hy : m.addr < y.addr) :
    addMappingList m (x :: y :: u) =
      if wrap (x.addr + x.size) ≤ m.addr ∧ wrap (m.addr + m.size) ≤ y.addr
      then some (x :: m :: y :: u) else none := by
  unfold addMappingList
  simp [List.findIdx_cons, hx, hy]

theorem addMappingList_cons_skip {m x y : Mapping} {u : List Mapping}
    (hx : ¬ m.addr < x.addr) (hy : ¬ m.addr < y.addr) :
    addMappingList m (x :: y :: u) = (addMappingList m (y :: u)).map (x :: ·) := by
  unfold addMappingList
  simp only [List.findIdx_cons, hx, hy, decide_False, Bool.false_eq_true, if_false,
    cond_false, List.take_succ_cons, List.drop_succ_cons, List.getLast?_cons_cons]
  split <;> simp

/-- When the new mapping sorts after the head, a successful insertion
keeps the head in place. -/
theorem addMappingList_head {m y : Mapping} {u l' : List Mapping}
    (hy : ¬ m.addr < y.addr) (h : addMappingList m (y :: u) = some l') :
    ∃ s, l' = y :: s := by
  cases u with
  | nil =>
    rw [addMappingList_cons_last hy] at h
    split at h
    · exact ⟨[m], (Option.some.inj h).symm⟩
    · cases h
  | cons z v =>
    by_cases hz : m.addr < z.addr
    · rw [addMappingList_cons_mid hy hz] at h
      split at h
      · exact ⟨m :: z :: v, (Option.some.inj h).symm⟩
      · cases h
    · rw [addMappingList_cons_skip hy hz] at h
      rcases Option.map_eq_some'.mp h with ⟨l'', _, rfl⟩
      exact ⟨l'', rfl⟩

/-- Insertion via `add_mapping` preserves the data-model invariant when the inserted
mapping is page-aligned and within the address space. -/
theorem addMappingList_WF {m : Mapping} (hm : mapGood m) :
    ∀ {l : List Mapping}, mappingsWF l → ∀ {l' : List Mapping},
      addMappingList m l = some l' → mappingsWF l' := by
  intro l
  induction l with
  | nil =>
    intro _ l' h
    rw [addMappingList_nil] at h
    cases Option.some.inj h
    exact ⟨List.chain'_singleton m, by simpa using hm⟩
  | cons x t ih =>
    intro hwf l' h
    have hgx : mapGood x := hwf.2 x (by simp)
    by_cases hx : m.addr < x.addr
    · rw [addMappingList_cons_lt hx] at h
      split at h
      next hc =>
        cases Option.some.inj h
        refine ⟨List.chain'_cons.mpr ⟨?_, hwf.1⟩, ?_⟩
        · have : wrap (m.addr + m.size) = m.addr + m.size := wrap_eq_of_lt hm.2
          unfold mapLE
          omega
        · intro a ha
          rcases List.mem_cons.mp ha with rfl | ha
          · exact hm
          · exact hwf.2 a ha
      next => cases h
    · cases t with
      | nil =>
        rw [addMappingList_cons_last hx] at h
        split at h
        next hc =>
          cases Option.some.inj h
          refine ⟨List.chain'_cons.mpr ⟨?_, List.chain'_singleton m⟩, ?_⟩
          · have : wrap (x.addr + x.size) = x.addr + x.size := wrap_eq_of_lt hgx.2
            unfold mapLE
            omega
          · intro a ha
            rcases List.mem_cons.mp ha with rfl | ha
            · exact hgx
            · simpa using (List.mem_singleton.mp (by simpa using ha)) ▸ hm
        next => cases h
      | cons y u =>
        have hwt : mappingsWF (y :: u) :=
          ⟨(List.chain'_cons.mp hwf.1).2, fun a ha => hwf.2 a (List.mem_cons_of_mem _ ha)⟩
        by_cases hy : m.addr < y.addr
        · rw [addMappingList_cons_mid hx hy] at h
          split at h
          next hc =>
            cases Option.some.inj h
            have hb1 : wrap (x.addr + x.size) = x.addr + x.size := wrap_eq_of_lt hgx.2
            have hb2 : wrap (m.addr + m.size) = m.addr + m.size := wrap_eq_of_lt hm.2
            refine ⟨?_, ?_⟩
            · rw [List.chain'_cons]
              refine ⟨by unfold mapLE; omega, ?_⟩
              rw [List.chain'_cons]
              exact ⟨by unfold mapLE; omega, hwt.1⟩
            · intro a ha
              rcases List.mem_cons.mp ha with rfl | ha
              · exact hgx
              · rcases List.mem_cons.mp ha with rfl | ha
                · exact hm
                · exact hwt.2 a ha
          next => cases h
        · rw [addMappingList_cons_skip hx hy] at h
          rcases Option.map_eq_some'.mp h with ⟨l'', hl'', rfl⟩
          have hwf'' : mappingsWF l'' := ih hwt hl''
          rcases addMappingList_head hy hl'' with ⟨s, rfl⟩
          refine ⟨List.chain'_cons.mpr ⟨(List.chain'_cons.mp hwf.1).1, hwf''.1⟩, ?_⟩
          intro a ha
          rcases List.mem_cons.mp ha with rfl | ha
          · exact hgx
          · exact hwf''.2 a ha

/-- A list's last element, when present, is a member. -/
theorem mem_of_getLast?_eq {α : Type} {l : List α} {a : α}
    (h : l.getLast? = some a) : a ∈ l := by
  obtain ⟨hne, heq⟩ := List.mem_getLast?_eq_getLast (show a ∈ l.getLast? from h)
  rw [heq]
  exact List.getLast_mem hne

/-- The prefix before the first hit of `p` is the longest prefix
falsifying `p`. -/
theorem take_findIdx_eq_takeWhile {α : Type} (p : α → Bool) :
    ∀ l : List α, l.take (l.findIdx p) = l.takeWhile fun x => !(p x) := by
  intro l
  induction l with
  | nil => rfl
  | cons x t ih =>
    rw [List.findIdx_cons, List.takeWhile_cons]
    cases hp : p x
    · simp [hp, ih]
    · simp [hp]

/-- The suffix from the first hit of `p` on is the remainder after the
longest prefix falsifying `p`. -/
theorem drop_findIdx_eq_dropWhile {α : Type} (p : α → Bool) :
    ∀ l : List α, l.drop (l.findIdx p) = l.dropWhile fun x => !(p x) := by
  intro l
  induction l with
  | nil => rfl
  | cons x t ih =>
    rw [List.findIdx_cons, List.dropWhile_cons]
    cases hp : p x
    · simp [hp, ih]
    · simp [hp]

/-- The head of `dropWhile p` falsifies `p`. -/
theorem dropWhile_head_false {α : Type} (p : α → Bool) :
    ∀ (l : List α) {y : α} {t : List α}, l.dropWhile p = y :: t → p y = false := by
  intro l
  induction l with
  | nil => intro y t h; cases h
  | cons x u ih =>
    intro y t h
    rw [List.dropWhile_cons] at h
    split at h
    · exact ih h
    · cases h
      next hpx => simpa using hpx

/-- A successful `add_mapping` on a sorted list splices the new mapping
at the unique sort-preserving position: before it exactly the mappings
whose base is at most the new one's, after it exactly those whose base
exceeds it. -/
theorem addMappingList_some_shape {m : Mapping} {l l' : List Mapping}
    (hch : List.Chain' mapLE l) (h : addMappingList m l = some l') :
    l' = (l.takeWhile fun x => !decide (m.addr < x.addr)) ++ m ::
        (l.dropWhile fun x => !decide (m.addr < x.addr)) ∧
      (∀ b ∈ l.takeWhile fun x => !decide (m.addr < x.addr), b.addr ≤ m.addr) ∧
      (∀ a ∈ l.dropWhile fun x => !decide (m.addr < x.addr), m.addr < a.addr) := by
  refine ⟨?_, ?_, ?_⟩
  · unfold addMappingList at h
    dsimp only at h
    rw [take_findIdx_eq_takeWhile, drop_findIdx_eq_dropWhile] at h
    split at h
    · exact (Option.some.inj h).symm
    · cases h
  · intro b hb
    have hpb := List.mem_takeWhile_imp hb
    simp only [Bool.not_eq_true', decide_eq_false_iff_not, Nat.not_lt] at hpb
    exact hpb
  · intro a ha
    cases hafter : l.dropWhile (fun x => !decide (m.addr < x.addr)) with
    | nil => rw [hafter] at ha; cases ha
    | cons y t =>
      rw [hafter] at ha
      have hy : (!decide (m.addr < y.addr)) = false := dropWhile_head_false _ l hafter
      have hy' : m.addr < y.addr := by simpa using hy
      rcases List.mem_cons.mp ha with rfl | ha
      · exact hy'
      · have hsuff : List.Chain' mapLE (y :: t) := by
          rw [← hafter]
          exact hch.suffix (List.dropWhile_suffix _)
        have hya := chain_mapLE_head hsuff a ha
        omega

/-- Fail-fast, previous neighbour: when the mapping that would sit just
before the insertion position overlaps the new mapping, the neighbour
assert fires and `add_mapping` aborts. -/
theorem addMappingList_overlap_prev {m : Mapping} {l : List Mapping}
    (hg : ∀ x ∈ l, mapGood x) {prev : Mapping}
    (hprev : (l.takeWhile fun x => !decide (m.addr < x.addr)).getLast? = some prev)
    (hov : m.addr < prev.addr + prev.size) :
    addMappingList m l = none := by
  have hmem : prev ∈ l :=
    (List.takeWhile_sublist _).subset (mem_of_getLast?_eq hprev)
  have hwrap : wrap (prev.addr + prev.size) = prev.addr + prev.size :=
    wrap_eq_of_lt (hg prev hmem).2
  unfold addMappingList
  dsimp only
  rw [take_findIdx_eq_takeWhile, hprev]
  dsimp only
  rw [hwrap, decide_eq_false (by omega : ¬ prev.addr + prev.size ≤ m.addr)]
  simp

/-- Fail-fast, next neighbour: when the mapping that would sit just
after the insertion position overlaps the new mapping, the neighbour
assert fires and `add_mapping` aborts. -/
theorem addMappingList_overlap_next {m : Mapping} {l : List Mapping}
    (hm : mapGood m) {next : Mapping}
    (hnext : (l.dropWhile fun x => !decide (m.addr < x.addr)).head? = some next)
    (hov : next.addr < m.addr + m.size) :
    addMappingList m l = none := by
  have hwrap : wrap (m.addr + m.size) = m.addr + m.size := wrap_eq_of_lt hm.2
  unfold addMappingList
  dsimp only
  rw [drop_findIdx_eq_dropWhile, hnext]
  dsimp only
  rw [hwrap, decide_eq_false (by omega : ¬ m.addr + m.size ≤ next.addr)]
  simp

/-- On a well-formed list the machine scan agrees with the
specification's scan: every `u32` gap subtraction is genuine and every
page rounding stays in range. -/
theorem allocGo_eq_specGo (size : Nat) (d : String) :
    ∀ (l : List Mapping) (e : Nat), List.Chain' mapLE l → (∀ m ∈ l, mapGood m) →
      (∀ m ∈ l, e ≤ m.addr) →
      allocGo size d e l = allocSpecGo size d e l := by
  intro l
  induction l with
  | nil => intro e _ _ _; rfl
  | cons m rest ih =>
    intro e hch hg hle
    have hm : mapGood m := hg m (by simp)
    have hem : e ≤ m.addr := hle m (by simp)
    have hma : m.addr < U32LIM := Nat.lt_of_le_of_lt (Nat.le_add_right _ _) hm.2
    unfold allocGo allocSpecGo
    rw [wsub_eq_sub hem hma]
    split
    · rfl
    · cases rest with
      | nil => rfl
      | cons y u =>
        have hy : mapGood y := hg y (by simp)
        have hmy : m.addr + m.size ≤ y.addr := (List.chain'_cons.mp hch).1
        have hya : y.addr ≤ 0xFFFFF000 := by
          have h1 := hy.1
          have h2 : y.addr < U32LIM := Nat.lt_of_le_of_lt (Nat.le_add_right _ _) hy.2
          unfold U32LIM at h2
          omega
        rw [alignPage_eq_nat (Nat.le_trans hmy hya)]
        rw [ih (alignPageNat (m.addr + m.size)) (List.chain'_cons.mp hch).2
          (fun b hb => hg b (List.mem_cons_of_mem _ hb))
          (fun b hb => alignPageNat_le (chain_mapLE_head hch b hb)
            (hg b (List.mem_cons_of_mem _ hb)).1)]

/-- A successful specification scan returns a page-aligned mapping of
exactly the requested size, at or after the running scan position, and
the spliced list is well-formed again. -/
theorem allocSpecGo_some (size : Nat) (d : String) :
    ∀ (l : List Mapping) (e : Nat), List.Chain' mapLE l → (∀ m ∈ l, mapGood m) →
      e % 0x1000 = 0 → (∀ m ∈ l, e ≤ m.addr) →
      ∀ {r : Mapping} {l' : List Mapping}, allocSpecGo size d e l = some (r, l') →
        List.Chain' mapLE l' ∧ (∀ m ∈ l', mapGood m) ∧ (∀ m ∈ l', e ≤ m.addr) ∧
          r.size = size ∧ r.desc = d ∧ r.addr % 0x1000 = 0 ∧ e ≤ r.addr ∧ r ∈ l' := by
  intro l
  induction l with
  | nil => intro e _ _ _ _ r l' h; cases h
  | cons m rest ih =>
    intro e hch hg he hle r l' h
    have hm : mapGood m := hg m (by simp)
    have hem : e ≤ m.addr := hle m (by simp)
    unfold allocSpecGo at h
    split at h
    next hc =>
      cases Option.some.inj h
      have hnew : e + size < m.addr := by omega
      refine ⟨List.chain'_cons.mpr ⟨by unfold mapLE; simpa using Nat.le_of_lt hnew, hch⟩,
        ?_, ?_, rfl, rfl, he, Nat.le_refl e, by simp⟩
      · intro a ha
        rcases List.mem_cons.mp ha with rfl | ha
        · exact ⟨he, by have := hm.2; unfold U32LIM at *; simp; omega⟩
        · exact hg a ha
      · intro a ha
        rcases List.mem_cons.mp ha with rfl | ha
        · simp
        · exact hle a ha
    next hc =>
      rcases Option.map_eq_some'.mp h with ⟨⟨r', l''⟩, hinner, heq⟩
      cases heq
      have he2 : alignPageNat (m.addr + m.size) % 0x1000 = 0 := alignPageNat_mod _
      have hle2 : ∀ b ∈ rest, alignPageNat (m.addr + m.size) ≤ b.addr := fun b hb =>
        alignPageNat_le (chain_mapLE_head hch b hb) (hg b (List.mem_cons_of_mem _ hb)).1
      obtain ⟨hch'', hg'', hle'', hrsize, hrdesc, hraddr, hre2, hrmem⟩ :=
        ih (alignPageNat (m.addr + m.size)) hch.tail
          (fun b hb => hg b (List.mem_cons_of_mem _ hb)) he2 hle2 hinner
      have hme2 : m.addr + m.size ≤ alignPageNat (m.addr + m.size) := le_alignPageNat _
      refine ⟨?_, ?_, ?_, hrsize, hrdesc, hraddr,
        Nat.le_trans (Nat.le_trans hem (Nat.le_add_right _ _)) (Nat.le_trans hme2 hre2),
        List.mem_cons_of_mem _ hrmem⟩
      · rw [List.chain'_cons']
        refine ⟨?_, hch''⟩
        intro z hz
        have hzmem : z ∈ l'' := by
          cases l'' with
          | nil => cases hz
          | cons a t => simp at hz; simp [hz]
        exact Nat.le_trans hme2 (hle'' z hzmem)
      · intro a ha
        rcases List.mem_cons.mp ha with rfl | ha
        · exact hm
        · exact hg'' a ha
      · intro a ha
        rcases List.mem_cons.mp ha with rfl | ha
        · exact hem
        · exact Nat.le_trans (Nat.le_trans hem (Nat.le_add_right _ _))
            (Nat.le_trans hme2 (hle'' a ha))

/-- Every mapping the machine scan hands out is page-aligned, with no
well-formedness assumptions at all: the scan position starts at `0`
and is page-rounded at every step. -/
theorem allocGo_addr_aligned (size : Nat) (d : String) :
    ∀ (l : List Mapping) (e : Nat), e % 0x1000 = 0 →
      ∀ {r : Mapping} {l' : List Mapping}, allocGo size d e l = some (r, l') →
        r.addr % 0x1000 = 0 := by
  intro l
  induction l with
  | nil => intro e _ r l' h; cases h
  | cons m rest ih =>
    intro e he r l' h
    unfold allocGo at h
    split at h
    next => cases Option.some.inj h; exact he
    next =>
      rcases Option.map_eq_some'.mp h with ⟨⟨r', l''⟩, hinner, heq⟩
      cases heq
      exact ih (alignPage (m.addr + m.size)) (alignPage_mod _) hinner

/-- A single well-behaved operation preserves the invariant. -/
theorem step_WF {s : K32State} {op : K32Op} (hop : opGood op)
    (hs : mappingsWF s.mappings) {s' : K32State} (h : K32State.step s op = some s') :
    mappingsWF s'.mappings := by
  cases op with
  | add m =>
    unfold K32State.step K32State.add_mapping at h
    rcases Option.map_eq_some'.mp h with ⟨l', hl', rfl⟩
    exact addMappingList_WF hop hs hl'
  | allocate size d =>
    unfold K32State.step K32State.alloc at h
    rcases Option.map_eq_some'.mp h with ⟨⟨r0, s0⟩, hr, heq⟩
    rcases Option.map_eq_some'.mp hr with ⟨⟨r1, l1⟩, hgo, heq1⟩
    cases heq1
    cases heq
    rw [allocGo_eq_specGo size d s.mappings 0 hs.1 hs.2 (fun _ _ => Nat.zero_le _)] at hgo
    obtain ⟨hch, hg, _, _, _, _, _, _⟩ :=
      allocSpecGo_some size d s.mappings 0 hs.1 hs.2 (by decide)
        (fun _ _ => Nat.zero_le _) hgo
    exact ⟨hch, hg⟩

/-- Every run of well-behaved operations preserves the invariant. -/
theorem run_WF : ∀ (ops : List K32Op) (s : K32State), mappingsWF s.mappings →
    (∀ op ∈ ops, opGood op) → ∀ {s' : K32State},
    K32State.run s ops = some s' → mappingsWF s'.mappings := by
  intro ops
  induction ops with
  | nil =>
    intro s hs _ s' h
    cases Option.some.inj h
    exact hs
  | cons op rest ih =>
    intro s hs hops s' h
    unfold K32State.run at h
    rcases Option.bind_eq_some.mp h with ⟨s1, hstep, hrun⟩
    exact ih s1 (step_WF (hops op (by simp)) hs hstep)
      (fun o ho => hops o (List.mem_cons_of_mem _ ho)) hrun

/-! ### Small helper lemmas for the shim theorems -/

theorem and4_eq (f : Nat) : f &&& 4 = f / 4 % 2 * 4 := by
  have h := Nat.and_two_pow f 2
  norm_num [Nat.toNat_testBit] at h
  exact h

theorem and2_eq (f : Nat) : f &&& 2 = f / 2 % 2 * 2 := by
  have h := Nat.and_two_pow f 1
  norm_num [Nat.toNat_testBit] at h
  exact h

/-- Clearing the `DDSD_WIDTH` bit does not disturb the `DDSD_HEIGHT`
bit. -/
theorem sub_and4_and2 (f : Nat) : (f - (f &&& 4)) &&& 2 = f &&& 2 := by
  rw [and2_eq, and2_eq, and4_eq]
  omega

/-- Freeing the block just allocated restores the heap exactly. -/
theorem Heap.free_alloc (h : Heap) (n : Nat) :
    ((h.alloc n).2).free (h.alloc n).1 = h := by
  unfold Heap.alloc Heap.free
  simp [List.eraseP_cons]

/-- Updating the entry for a present key makes lookup see the new
value. -/
theorem lookup_setAssoc_self {α : Type} (l : List (Nat × α)) (k : Nat) (v w : α)
    (h : l.lookup k = some w) : (setAssoc l k v).lookup k = some v := by
  induction l with
  | nil => cases h
  | cons p t ih =>
    obtain ⟨a, b⟩ := p
    unfold setAssoc at *
    by_cases hk : a = k
    · subst hk
      have hif : (if (a, b).1 = a then (a, v) else (a, b)) = (a, v) := if_pos rfl
      rw [List.map_cons, hif]
      simp [List.lookup]
    · have hif : (if (a, b).1 = k then (k, v) else (a, b)) = (a, b) :=
        if_neg (by simpa using hk)
      have hne : (k == a) = false := by
        simp only [beq_eq_false_iff_ne, ne_eq]
        exact fun hkk => hk hkk.symm
      simp only [List.map_cons, hif]
      simp only [List.lookup, hne] at h ⊢
      exact ih h

/-- Reading four little-endian bytes back after `writeU32` yields the
stored value reduced to `u32`. -/
theorem readU32_writeU32 (mem : List Nat) (a v : Nat) (h : a + 4 ≤ mem.length) :
    readU32 (writeU32 mem a v) a = wrap v := by
  have hlen : (mem.take a).length = a := by
    rw [List.length_take]
    omega
  have hget : ∀ i, i < 4 →
      (writeU32 mem a v).getD (a + i) 0 =
        [v % 256, v / 256 % 256, v / 65536 % 256, v / 16777216 % 256].getD i 0 := by
    intro i hi
    unfold writeU32
    rw [List.getD_eq_getElem?_getD, List.getD_eq_getElem?_getD, List.append_assoc,
      List.getElem?_append_right (by omega : (mem.take a).length ≤ a + i)]
    rw [hlen]
    have : a + i - a = i := by omega
    rw [this]
    rw [List.getElem?_append_left (by simp; omega)]
  unfold readU32
  have h0 := hget 0 (by omega)
  have h1 := hget 1 (by omega)
  have h2 := hget 2 (by omega)
  have h3 := hget 3 (by omega)
  norm_num at h0 h1 h2 h3
  simp only [List.getD_eq_getElem?_getD]
  rw [h0, h1, h2, h3]
  unfold wrap U32LIM
  omega

/-- Calling `Unlock` never modifies the surfaces table (so a surface's `pixels`
field is stable across it). -/
theorem Unlock_surfaces_const (mc : DDMachine) (this : Nat) (rect : Option RECT)
    {res : DDMachine × Option RECT × Nat} (h : Unlock mc this rect = some res) :
    res.1.ddraw.surfaces = mc.ddraw.surfaces := by
  unfold Unlock at h
  split at h
  · cases h
  · dsimp only at h
    split at h
    · split at h
      · split at h
        · cases h
        · cases Option.some.inj h; rfl
      · cases h
    · cases Option.some.inj h; rfl

/-! ### Claim theorems -/

/-- C1, counterexample: on a registered 320×200 surface and a desc with
the correct `dwSize` requesting only `WIDTH`, `GetSurfaceDesc` fills
the width but still returns `DDERR_GENERIC`, not success — refuting
"yields DDERR_GENERIC exactly when dwFlags contains a flag other than
WIDTH or HEIGHT". -/
theorem GetSurfaceDesc_width_only_counterexample :
    GetSurfaceDesc [(100, { host := 0, width := 320, height := 200, palette := 0, pixels := 0 })]
        100 (some { DDSURFACEDESC2.clear with dwSize := DDSURFACEDESC2_SIZE, dwFlags := DDSD_WIDTH })
      = some ({ DDSURFACEDESC2.clear with
                dwSize := DDSURFACEDESC2_SIZE
                dwFlags := DDSD_WIDTH
                dwWidth := 320 },
          DDERR_GENERIC)
      ∧ DDERR_GENERIC ≠ DD_OK := by
  constructor
  · decide
  · decide

/-- C1 (amended): on a registered surface and a desc whose `dwSize`
equals `size_of(DDSURFACEDESC2)`, the WIDTH and HEIGHT fields requested
in `desc.dwFlags` are filled from the surface record (all other desc
fields, `dwFlags` included, are untouched), and the call returns
`DDERR_GENERIC` unconditionally — a flag other than WIDTH or HEIGHT
only adds a log line. -/
theorem GetSurfaceDesc_fills_and_returns_generic
    (surfaces : List (Nat × Surface)) (this : Nat) (surf : Surface) (desc : DDSURFACEDESC2)
    (hs : surfaces.lookup this = some surf) (hsz : desc.dwSize = DDSURFACEDESC2_SIZE) :
    GetSurfaceDesc surfaces this (some desc) =
      some ({ desc with
          dwWidth := if desc.dwFlags &&& DDSD_WIDTH == DDSD_WIDTH then surf.width else desc.dwWidth
          dwHeight := if desc.dwFlags &&& DDSD_HEIGHT == DDSD_HEIGHT then surf.height
                      else desc.dwHeight },
        DDERR_GENERIC) := by
  unfold GetSurfaceDesc
  rw [hs]
  dsimp only
  rw [if_neg (show ¬ (desc.dwSize ≠ DDSURFACEDESC2_SIZE) from by simp [hsz])]
  cases hw : (desc.dwFlags &&& DDSD_WIDTH == DDSD_WIDTH) with
  | false => cases hh : (desc.dwFlags &&& DDSD_HEIGHT == DDSD_HEIGHT) <;> simp [hw, hh]
  | true =>
    have hflags : (desc.dwFlags - (desc.dwFlags &&& DDSD_WIDTH)) &&& DDSD_HEIGHT
        = desc.dwFlags &&& DDSD_HEIGHT := sub_and4_and2 _
    cases hh : (desc.dwFlags &&& DDSD_HEIGHT == DDSD_HEIGHT) <;>
      simp [hw, hflags, hh]

/-- C1, witness: a surface of 640×480 under handle 7, with WIDTH,
HEIGHT and one unsupported flag (CAPS, bit 0) requested: both fields
are filled and the call returns `DDERR_GENERIC`. -/
theorem GetSurfaceDesc_fills_and_returns_generic_witness :
    GetSurfaceDesc [(7, { host := 1, width := 640, height := 480, palette := 0, pixels := 0 })]
        7 (some { DDSURFACEDESC2.clear with dwSize := DDSURFACEDESC2_SIZE, dwFlags := 7 })
      = some ({ DDSURFACEDESC2.clear with
                dwSize := DDSURFACEDESC2_SIZE
                dwFlags := 7
                dwWidth := 640
                dwHeight := 480 },
          DDERR_GENERIC) := by
  rw [GetSurfaceDesc_fills_and_returns_generic
    [(7, { host := 1, width := 640, height := 480, palette := 0, pixels := 0 })] 7
    { host := 1, width := 640, height := 480, palette := 0, pixels := 0 }
    { DDSURFACEDESC2.clear with dwSize := DDSURFACEDESC2_SIZE, dwFlags := 7 }
    rfl rfl]
  decide

/-- C2, counterexample: `GetModuleHandleA` with the non-null popped
name `1` sets `eax` to the image base `0x400000`, not to `0` as the
claim's non-null branch states. -/
theorem GetModuleHandleA_nonnull_counterexample :
    (GetModuleHandleA
      { stack := [1]
        mem := []
        state := { image_base := 0x400000, teb := 0, mappings := [] }
        regs := { eax := 0 }
        host := { writes := [], writeResult := List.length } }).regs.eax = 0x400000
      ∧ (0x400000 : Nat) ≠ 0 := by
  constructor
  · rfl
  · decide

/-- C2 (amended): `GetModuleHandleA` pops the name argument and sets
`eax` to the process state's `image_base` — when the name is `0` as the
claim says, but also when it is non-zero (that case is merely logged;
`eax` still receives `image_base`, not `0`). -/
theorem GetModuleHandleA_sets_image_base (x : X86) :
    (GetModuleHandleA x).regs.eax = x.state.image_base ∧
      (GetModuleHandleA x).stack = x.stack.tail :=
  ⟨rfl, rfl⟩

/-- C3: on a mapping list satisfying the data-model invariant,
`alloc(size, desc)` is exactly the specification's scan: it walks the
list in order, computes each gap between the previous mapping's end
rounded up to a 4 KiB boundary and the next mapping's start, splices a
mapping of exactly the requested size at the aligned start of the
first gap strictly greater than `size` and returns it, and aborts
(`none`, the `panic!`) when no gap suffices. -/
theorem alloc_matches_spec_scan (s : K32State) (size : Nat) (d : String)
    (h : mappingsWF s.mappings) :
    K32State.alloc s size d = K32State.allocSpec s size d ∧
      ∀ r s', K32State.alloc s size d = some (r, s') →
        r.size = size ∧ r.desc = d ∧ r.addr % 0x1000 = 0 ∧ r ∈ s'.mappings := by
  have heq : allocGo size d 0 s.mappings = allocSpecGo size d 0 s.mappings :=
    allocGo_eq_specGo size d s.mappings 0 h.1 h.2 fun _ _ => Nat.zero_le _
  constructor
  · unfold K32State.alloc K32State.allocSpec
    rw [heq]
  · intro r s' halloc
    unfold K32State.alloc at halloc
    rcases Option.map_eq_some'.mp halloc with ⟨⟨r1, l1⟩, hgo, heq1⟩
    cases heq1
    rw [heq] at hgo
    obtain ⟨_, _, _, hsize, hdesc, haddr, _, hmem⟩ :=
      allocSpecGo_some size d s.mappings 0 h.1 h.2 (by decide)
        (fun _ _ => Nat.zero_le _) hgo
    exact ⟨hsize, hdesc, haddr, hmem⟩

/-- C3, witness: a well-formed two-mapping list (null guard plus an
image at `0x5000`); allocating `0x2000` bytes goes through the scan on
both sides identically. -/
theorem alloc_matches_spec_scan_witness :
    mappingsWF [{ addr := 0, size := 0x1000, desc := "avoid null pointers" },
      { addr := 0x5000, size := 0x1000, desc := "image" }] ∧
    K32State.alloc
        { image_base := 0, teb := 0,
          mappings := [{ addr := 0, size := 0x1000, desc := "avoid null pointers" },
            { addr := 0x5000, size := 0x1000, desc := "image" }] } 0x2000 "heap"
      = K32State.allocSpec
        { image_base := 0, teb := 0,
          mappings := [{ addr := 0, size := 0x1000, desc := "avoid null pointers" },
            { addr := 0x5000, size := 0x1000, desc := "image" }] } 0x2000 "heap" :=
  ⟨by decide,
    (alloc_matches_spec_scan
      { image_base := 0, teb := 0,
        mappings := [{ addr := 0, size := 0x1000, desc := "avoid null pointers" },
          { addr := 0x5000, size := 0x1000, desc := "image" }] } 0x2000 "heap"
      (by decide)).1⟩

/-- C4, counterexample: starting from the initial state, adding the
(unaligned, overlap-free) mappings `(0x1000, 0x100)` and
`(0x1500, 0x10)` and then allocating `0x100` bytes succeeds but leaves
the list unsorted — the scan's `u32` gap subtraction wraps around once
the page-rounded end (`0x2000`) passes the unaligned next start
(`0x1500`), so the new mapping is spliced in out of order.  This
refutes the claim for arbitrary `add_mapping`/`alloc` sequences. -/
theorem mapping_invariant_counterexample :
    (K32State.run K32State.new
        [K32Op.add { addr := 0x1000, size := 0x100, desc := "a" },
         K32Op.add { addr := 0x1500, size := 0x10, desc := "b" },
         K32Op.allocate 0x100 "c"]).map (fun s => s.mappings.map Mapping.addr)
      = some [0, 0x1000, 0x2000, 0x1500]
      ∧ ¬ List.Chain' (fun a b : Nat => a ≤ b) [0, 0x1000, 0x2000, 0x1500] := by
  constructor
  · decide
  · decide

/-- C4 (amended): for every sequence of `add_mapping`/`alloc`
operations from the initial state in which every mapping handed to
`add_mapping` is page-aligned with its extent inside the `u32` address
space, the resulting mapping list is sorted by `addr` and pairwise
disjoint, every base in it is page-aligned, and the base of any mapping
`alloc` returns from such a state is 4 KiB aligned; moreover, from such
a state `add_mapping` still inserts at the unique sort-preserving
position (before it exactly the mappings with base at most the new
one's, after it exactly those with larger base) and fails fast —
aborts — when the inserted mapping would overlap the neighbour on
either side of that position. -/
theorem run_preserves_mapping_invariant (ops : List K32Op)
    (hops : ∀ op ∈ ops, opGood op) (s' : K32State)
    (h : K32State.run K32State.new ops = some s') :
    List.Chain' (fun a b => a.addr ≤ b.addr) s'.mappings ∧
      List.Pairwise (fun a b => a.addr + a.size ≤ b.addr ∨ b.addr + b.size ≤ a.addr)
        s'.mappings ∧
      (∀ m ∈ s'.mappings, m.addr % 0x1000 = 0) ∧
      (∀ size d r s2, K32State.alloc s' size d = some (r, s2) → r.addr % 0x1000 = 0) ∧
      (∀ (m : Mapping) (s2 : K32State), K32State.add_mapping s' m = some s2 →
        s2.mappings
            = (s'.mappings.takeWhile fun x => !decide (m.addr < x.addr)) ++ m ::
              (s'.mappings.dropWhile fun x => !decide (m.addr < x.addr)) ∧
          (∀ b ∈ s'.mappings.takeWhile fun x => !decide (m.addr < x.addr), b.addr ≤ m.addr) ∧
          (∀ a ∈ s'.mappings.dropWhile fun x => !decide (m.addr < x.addr), m.addr < a.addr)) ∧
      ∀ m : Mapping, mapGood m →
        (∀ prev,
          (s'.mappings.takeWhile fun x => !decide (m.addr < x.addr)).getLast? = some prev →
          m.addr < prev.addr + prev.size → K32State.add_mapping s' m = none) ∧
        (∀ next,
          (s'.mappings.dropWhile fun x => !decide (m.addr < x.addr)).head? = some next →
          next.addr < m.addr + m.size → K32State.add_mapping s' m = none) := by
  have hwf : mappingsWF s'.mappings := run_WF ops K32State.new (by decide) hops h
  refine ⟨?_, ?_, ?_, ?_, ?_, ?_⟩
  · exact hwf.1.imp fun a b hab => by unfold mapLE at hab; omega
  · exact (List.chain'_iff_pairwise.mp hwf.1).imp fun hab => Or.inl hab
  · exact fun m hm => (hwf.2 m hm).1
  · intro size d r s2 halloc
    unfold K32State.alloc at halloc
    rcases Option.map_eq_some'.mp halloc with ⟨⟨r1, l1⟩, hgo, heq1⟩
    cases heq1
    exact allocGo_addr_aligned size d s'.mappings 0 (by decide) hgo
  · intro m s2 hadd
    unfold K32State.add_mapping at hadd
    rcases Option.map_eq_some'.mp hadd with ⟨l', hl', rfl⟩
    exact addMappingList_some_shape hwf.1 hl'
  · intro m hm
    constructor
    · intro prev hprev hov
      unfold K32State.add_mapping
      rw [addMappingList_overlap_prev hwf.2 hprev hov]
      rfl
    · intro next hnext hov
      unfold K32State.add_mapping
      rw [addMappingList_overlap_next hm hnext hov]
      rfl

/-- C4, witness: adding the aligned mapping `(0x8000, 0x10)` and then
allocating `0x1000` bytes lands the new mapping at `0x1000`; the
resulting three-element list satisfies every conclusion, including the
sort-preserving-insertion shape and the fail-fast behaviour of further
`add_mapping` calls. -/
theorem run_preserves_mapping_invariant_witness :
    (∀ op ∈ ([K32Op.add { addr := 0x8000, size := 0x10, desc := "img" },
        K32Op.allocate 0x1000 "heap"] : List K32Op), opGood op) ∧
    (List.Chain' (fun a b => a.addr ≤ b.addr) (K32State.mk 0 0 [{ addr := 0, size := 0x1000, desc := "avoid null pointers" },
          { addr := 0x1000, size := 0x1000, desc := "heap" },
          { addr := 0x8000, size := 0x10, desc := "img" }]).mappings ∧
      List.Pairwise (fun a b => a.addr + a.size ≤ b.addr ∨ b.addr + b.size ≤ a.addr)
        (K32State.mk 0 0 [{ addr := 0, size := 0x1000, desc := "avoid null pointers" },
          { addr := 0x1000, size := 0x1000, desc := "heap" },
          { addr := 0x8000, size := 0x10, desc := "img" }]).mappings ∧
      (∀ m ∈ (K32State.mk 0 0 [{ addr := 0, size := 0x1000, desc := "avoid null pointers" },
          { addr := 0x1000, size := 0x1000, desc := "heap" },
          { addr := 0x8000, size := 0x10, desc := "img" }]).mappings, m.addr % 0x1000 = 0) ∧
      (∀ size d r s2, K32State.alloc (K32State.mk 0 0 [{ addr := 0, size := 0x1000, desc := "avoid null pointers" },
          { addr := 0x1000, size := 0x1000, desc := "heap" },
          { addr := 0x8000, size := 0x10, desc := "img" }]) size d = some (r, s2) → r.addr % 0x1000 = 0) ∧
      (∀ (m : Mapping) (s2 : K32State), K32State.add_mapping (K32State.mk 0 0 [{ addr := 0, size := 0x1000, desc := "avoid null pointers" },
          { addr := 0x1000, size := 0x1000, desc := "heap" },
          { addr := 0x8000, size := 0x10, desc := "img" }]) m = some s2 →
        s2.mappings
            = ((K32State.mk 0 0 [{ addr := 0, size := 0x1000, desc := "avoid null pointers" },
          { addr := 0x1000, size := 0x1000, desc := "heap" },
          { addr := 0x8000, size := 0x10, desc := "img" }]).mappings.takeWhile fun x => !decide (m.addr < x.addr)) ++ m ::
              ((K32State.mk 0 0 [{ addr := 0, size := 0x1000, desc := "avoid null pointers" },
          { addr := 0x1000, size := 0x1000, desc := "heap" },
          { addr := 0x8000, size := 0x10, desc := "img" }]).mappings.dropWhile fun x => !decide (m.addr < x.addr)) ∧
          (∀ b ∈ (K32State.mk 0 0 [{ addr := 0, size := 0x1000, desc := "avoid null pointers" },
          { addr := 0x1000, size := 0x1000, desc := "heap" },
          { addr := 0x8000, size := 0x10, desc := "img" }]).mappings.takeWhile fun x => !decide (m.addr < x.addr), b.addr ≤ m.addr) ∧
          (∀ a ∈ (K32State.mk 0 0 [{ addr := 0, size := 0x1000, desc := "avoid null pointers" },
          { addr := 0x1000, size := 0x1000, desc := "heap" },
          { addr := 0x8000, size := 0x10, desc := "img" }]).mappings.dropWhile fun x => !decide (m.addr < x.addr), m.addr < a.addr)) ∧
      ∀ m : Mapping, mapGood m →
        (∀ prev,
          ((K32State.mk 0 0 [{ addr := 0, size := 0x1000, desc := "avoid null pointers" },
          { addr := 0x1000, size := 0x1000, desc := "heap" },
          { addr := 0x8000, size := 0x10, desc := "img" }]).mappings.takeWhile fun x => !decide (m.addr < x.addr)).getLast? = some prev →
          m.addr < prev.addr + prev.size → K32State.add_mapping (K32State.mk 0 0 [{ addr := 0, size := 0x1000, desc := "avoid null pointers" },
          { addr := 0x1000, size := 0x1000, desc := "heap" },
          { addr := 0x8000, size := 0x10, desc := "img" }]) m = none) ∧
        (∀ next,
          ((K32State.mk 0 0 [{ addr := 0, size := 0x1000, desc := "avoid null pointers" },
          { addr := 0x1000, size := 0x1000, desc := "heap" },
          { addr := 0x8000, size := 0x10, desc := "img" }]).mappings.dropWhile fun x => !decide (m.addr < x.addr)).head? = some next →
          next.addr < m.addr + m.size → K32State.add_mapping (K32State.mk 0 0 [{ addr := 0, size := 0x1000, desc := "avoid null pointers" },
          { addr := 0x1000, size := 0x1000, desc := "heap" },
          { addr := 0x8000, size := 0x10, desc := "img" }]) m = none)) :=
  ⟨by decide,
    run_preserves_mapping_invariant
      [K32Op.add { addr := 0x8000, size := 0x10, desc := "img" },
        K32Op.allocate 0x1000 "heap"]
      (by decide)
      (K32State.mk 0 0 [{ addr := 0, size := 0x1000, desc := "avoid null pointers" },
          { addr := 0x1000, size := 0x1000, desc := "heap" },
          { addr := 0x8000, size := 0x10, desc := "img" }])
      (by decide)⟩

/-- Reduction `wrap` is idempotent. -/
theorem wrap_wrap (n : Nat) : wrap (wrap n) = wrap n := by
  unfold wrap U32LIM
  omega

/-- C5: a `WriteFile` call whose popped arguments are
`(STDOUT_HFILE, buf, n, pWritten, 0)` and whose buffer is in range
passes `mem[buf .. buf+n]` to the host writer, stores the count the
host reports (as a `u32`) at `pWritten`, and sets `eax = 1`. -/
theorem WriteFile_stdout (x : X86) (buf n pw : Nat) (rest : List Nat)
    (hstack : x.stack = STDOUT_HFILE :: buf :: n :: pw :: 0 :: rest)
    (hbuf : buf + n ≤ x.mem.length) (hpw : pw + 4 ≤ x.mem.length) :
    WriteFile x = some
      { x with
        stack := rest
        mem := writeU32 x.mem pw (wrap (x.host.writeResult ((x.mem.drop buf).take n)))
        host := { x.host with writes := x.host.writes ++ [(x.mem.drop buf).take n] }
        regs := { x.regs with eax := 1 } } ∧
    readU32 (writeU32 x.mem pw (wrap (x.host.writeResult ((x.mem.drop buf).take n)))) pw
      = wrap (x.host.writeResult ((x.mem.drop buf).take n)) := by
  constructor
  · unfold WriteFile X86.pop
    rw [hstack]
    simp only [List.headD_cons, List.tail_cons]
    rw [if_neg (by simp), if_neg (by simp), if_pos hbuf]
  · rw [readU32_writeU32 x.mem pw _ hpw]
    exact wrap_wrap _

/-- C5, witness: the spec's stdout scenario — "hello" at address 0,
`pWritten = 6`, a host that reports the full length: the host write log
receives "hello", the count 5 lands at `pWritten`, `eax = 1`. -/
theorem WriteFile_stdout_witness :
    (WriteFile
      { stack := [STDOUT_HFILE, 0, 5, 6, 0]
        mem := [104, 101, 108, 108, 111, 0, 0, 0, 0, 0]
        state := K32State.new
        regs := { eax := 0 }
        host := { writes := [], writeResult := List.length } }).map
        (fun y => (y.host.writes, readU32 y.mem 6, y.regs.eax))
      = some ([[104, 101, 108, 108, 111]], 5, 1) := by
  rw [(WriteFile_stdout
    { stack := [STDOUT_HFILE, 0, 5, 6, 0]
      mem := [104, 101, 108, 108, 111, 0, 0, 0, 0, 0]
      state := K32State.new
      regs := { eax := 0 }
      host := { writes := [], writeResult := List.length } }
    0 5 6 [] rfl (by decide) (by decide)).1]
  rfl

/-- C6, counterexample: the spec's "VirtualAlloc basic" scenario — the
initial state holding only the null-guard mapping, arguments
`(0, 0x2000, MEM_COMMIT, 0)` — aborts in the allocator's exhaustion
panic instead of producing a mapping: the scan only examines gaps
before existing mappings and never allocates after the last one, so no
gap exists and nothing is written to `eax`. -/
theorem VirtualAlloc_basic_counterexample :
    VirtualAlloc
      { stack := [0, 0x2000, 0x1000, 0]
        mem := []
        state := K32State.new
        regs := { eax := 0 }
        host := { writes := [], writeResult := List.length } } = none := rfl

/-- C6 (amended): a `VirtualAlloc` call with `addr == 0` and
`type == MEM_COMMIT` on a well-formed state whose mapping list starts
with the null-guard mapping at address 0 either aborts with the
alloc-exhausted panic (when no inter-mapping gap exceeds the size), or
allocates a mapping of exactly the requested, un-rounded size at a
page-aligned base at or above the null-guard region and returns that
base in `eax`. -/
theorem VirtualAlloc_commit_properties (x : X86) (size prot : Nat) (rest : List Nat)
    (g : Nat) (d0 : String) (tail : List Mapping)
    (hstack : x.stack = 0 :: size :: 0x1000 :: prot :: rest)
    (hwf : mappingsWF x.state.mappings)
    (hnull : x.state.mappings = { addr := 0, size := g, desc := d0 } :: tail)
    (x' : X86) (h : VirtualAlloc x = some x') :
    x'.regs.eax % 0x1000 = 0 ∧ g ≤ x'.regs.eax ∧
      ({ addr := x'.regs.eax, size := size, desc := "VirtualAlloc" } : Mapping)
        ∈ x'.state.mappings := by
  unfold VirtualAlloc X86.pop at h
  rw [hstack] at h
  simp only [List.headD_cons, List.tail_cons] at h
  rw [if_neg (by simp), if_neg (by simp)] at h
  cases halloc : K32State.alloc x.state size "VirtualAlloc" with
  | none => rw [halloc] at h; cases h
  | some rs =>
    obtain ⟨r, st⟩ := rs
    rw [halloc] at h
    cases Option.some.inj h
    unfold K32State.alloc at halloc
    rcases Option.map_eq_some'.mp halloc with ⟨⟨r1, l1⟩, hgo, heq1⟩
    cases heq1
    rw [allocGo_eq_specGo size "VirtualAlloc" x.state.mappings 0 hwf.1 hwf.2
      (fun _ _ => Nat.zero_le _)] at hgo
    rw [hnull] at hgo
    unfold allocSpecGo at hgo
    rw [if_neg (by simp)] at hgo
    rcases Option.map_eq_some'.mp hgo with ⟨⟨r2, l2⟩, hgo2, heq2⟩
    cases heq2
    have hch : List.Chain' mapLE
        ({ addr := 0, size := g, desc := d0 } :: tail) := hnull ▸ hwf.1
    have hgd : ∀ m ∈ ({ addr := 0, size := g, desc := d0 } :: tail), mapGood m :=
      hnull ▸ hwf.2
    have hle : ∀ b ∈ tail, alignPageNat ({ addr := 0, size := g, desc := d0 : Mapping }.addr
        + { addr := 0, size := g, desc := d0 : Mapping }.size) ≤ b.addr := fun b hb =>
      alignPageNat_le (chain_mapLE_head hch b hb) (hgd b (List.mem_cons_of_mem _ hb)).1
    obtain ⟨_, _, _, hrsize, hrdesc, hraddr, hre, hrmem⟩ :=
      allocSpecGo_some size "VirtualAlloc" tail _ hch.tail
        (fun b hb => hgd b (List.mem_cons_of_mem _ hb)) (alignPageNat_mod _) hle hgo2
    refine ⟨hraddr, ?_, ?_⟩
    · calc g ≤ alignPageNat (0 + g) := by
            have := le_alignPageNat (0 + g)
            omega
        _ ≤ r2.addr := by simpa using hre
    · have : ({ addr := r2.addr, size := size, desc := "VirtualAlloc" } : Mapping) = r2 := by
        cases r2
        simp_all
      rw [this]
      exact List.mem_cons_of_mem _ hrmem

/-- C6, witness: with an image mapping at `0x8000` leaving a gap after
the null guard, committing `0x2000` bytes yields the page-aligned base
`0x1000`, at the null-guard boundary, with a mapping of exactly
`0x2000` bytes in the list. -/
theorem VirtualAlloc_commit_properties_witness :
    (0x1000 : Nat) % 0x1000 = 0 ∧ (0x1000 : Nat) ≤ 0x1000 ∧
      ({ addr := 0x1000, size := 0x2000, desc := "VirtualAlloc" } : Mapping)
        ∈ [{ addr := 0, size := 0x1000, desc := "avoid null pointers" },
          { addr := 0x1000, size := 0x2000, desc := "VirtualAlloc" },
          { addr := 0x8000, size := 0x10, desc := "img" }] :=
  VirtualAlloc_commit_properties
    { stack := [0, 0x2000, 0x1000, 0]
      mem := []
      state := { image_base := 0
                 teb := 0
                 mappings := [{ addr := 0, size := 0x1000, desc := "avoid null pointers" },
                   { addr := 0x8000, size := 0x10, desc := "img" }] }
      regs := { eax := 0 }
      host := { writes := [], writeResult := List.length } }
    0x2000 0 [] 0x1000 "avoid null pointers"
    [{ addr := 0x8000, size := 0x10, desc := "img" }]
    rfl (by decide) rfl
    { stack := []
      mem := []
      state := { image_base := 0
                 teb := 0
                 mappings := [{ addr := 0, size := 0x1000, desc := "avoid null pointers" },
                   { addr := 0x1000, size := 0x2000, desc := "VirtualAlloc" },
                   { addr := 0x8000, size := 0x10, desc := "img" }] }
      regs := { eax := 0x1000 }
      host := { writes := [], writeResult := List.length } }
    rfl

/-- C7: `EnumDisplayModes` with a null filter publishes one scratch
`DDSURFACEDESC2` (allocated on the ddraw heap) describing 320×200 at
8 bpp with masks R:`0xFF000000` G:`0x00FF0000` B:`0x0000FF00`
A:`0x000000FF`, invokes the guest callback exactly once with
`(desc_addr, lpContext)`, frees the scratch so the heap returns to its
prior state, and returns `DD_OK`. -/
theorem EnumDisplayModes_publishes_mode (st : DdrawState) (lpContext lpEnumCallback : Nat) :
    EnumDisplayModes st none lpContext lpEnumCallback =
      some { calls := [(lpEnumCallback, [(st.heap.alloc DDSURFACEDESC2_SIZE).1, lpContext])]
             published := { DDSURFACEDESC2.clear with
               dwSize := DDSURFACEDESC2_SIZE
               dwWidth := 320
               dwHeight := 200
               ddpfPixelFormat := { dwSize := DDPIXELFORMAT_SIZE
                                    dwFlags := 0
                                    dwFourCC := 0
                                    dwRGBBitCount := 8
                                    dwRBitMask := 0xFF000000
                                    dwGBitMask := 0x00FF0000
                                    dwBBitMask := 0x0000FF00
                                    dwRGBAlphaBitMask := 0x000000FF } }
             state := st
             ret := DD_OK } := by
  unfold EnumDisplayModes
  dsimp only
  rw [Heap.free_alloc]

/-- C8, counterexample: at a registered `0x10000 × 0x10000` surface the
`u32` product `width * height * 1` wraps to `0`, so the first lock
allocates a zero-byte heap block (the block recorded in the heap has
size `0`), not a region of `width * height * 1 = 2^32` bytes as the
claim states. -/
theorem Lock_overflow_counterexample :
    (Lock stBig 1 none (some DDSURFACEDESC2.clear) 0).map
        (fun r => (r.1.heap.used, r.2.2))
      = some ([(0x100, 0)], DD_OK)
      ∧ (0x10000 * 0x10000 * 1 : Nat) ≠ 0 := by
  constructor
  · decide
  · decide

/-- C8 (amended): `Lock` with a null rect on a registered surface: on
first lock (`pixels = 0`) a buffer of `width * height * 1` bytes —
taken as the wrapping `u32` product — is allocated from the ddraw heap
and stored in the surface's `pixels`; otherwise `pixels` and the heap
are untouched; either way the desc receives `lpSurface = pixels`,
`lPitch = width * 1` (`u32`), `dwFlags = LPSURFACE` and the call
returns `DD_OK`; and `Unlock` never changes the surfaces table, so
`pixels` is stable across a Lock/Unlock pair. -/
theorem Lock_pixels (st : DdrawState) (this : Nat) (surf : Surface)
    (desc : DDSURFACEDESC2) (flags : Nat)
    (hs : st.surfaces.lookup this = some surf) :
    (surf.pixels = 0 →
      Lock st this none (some desc) flags = some
        ({ st with
            surfaces := setAssoc st.surfaces this
              { surf with
                pixels := (st.heap.alloc (wrap (wrap (surf.width * surf.height) * 1))).1 }
            heap := (st.heap.alloc (wrap (wrap (surf.width * surf.height) * 1))).2 },
          { desc with
            dwFlags := DDSD_LPSURFACE
            lpSurface := (st.heap.alloc (wrap (wrap (surf.width * surf.height) * 1))).1
            lPitch_dwLinearSize := wrap (surf.width * 1) },
          DD_OK)) ∧
    (surf.pixels ≠ 0 →
      Lock st this none (some desc) flags = some
        ({ st with surfaces := setAssoc st.surfaces this surf },
          { desc with
            dwFlags := DDSD_LPSURFACE
            lpSurface := surf.pixels
            lPitch_dwLinearSize := wrap (surf.width * 1) },
          DD_OK)) ∧
    ∀ (mc : DDMachine) (t : Nat) (rect : Option RECT)
      (res : DDMachine × Option RECT × Nat),
      Unlock mc t rect = some res → res.1.ddraw.surfaces = mc.ddraw.surfaces := by
  refine ⟨?_, ?_, fun mc t rect res h => Unlock_surfaces_const mc t rect h⟩
  · intro hp
    unfold Lock
    rw [hs]
    dsimp only
    rw [if_pos hp]
  · intro hp
    unfold Lock
    rw [hs]
    dsimp only
    rw [if_neg hp]

/-- C8, witness: a fresh 4×1 surface under handle 1 with the heap based
at `0x100`: the first lock allocates the pixel buffer at `0x100`,
stores it in the record and the desc, sets the pitch to 4 and the
`LPSURFACE` flag, and returns `DD_OK`. -/
theorem Lock_pixels_witness :
    (Lock
        { hwnd := 0, width := 0, height := 0,
          surfaces := [(1, { host := 2, width := 4, height := 1, palette := 0, pixels := 0 })],
          palettes := [], palette_hack := 0, heap := { base := 0x100, used := [] } }
        1 none (some DDSURFACEDESC2.clear) 0).map
        (fun r => ((r.1.surfaces.lookup 1).map Surface.pixels, r.1.heap.used,
          r.2.1.lpSurface, r.2.1.dwFlags, r.2.1.lPitch_dwLinearSize, r.2.2))
      = some (some 0x100, [(0x100, 4)], 0x100, DDSD_LPSURFACE, 4, DD_OK) := by
  rw [(Lock_pixels
    { hwnd := 0, width := 0, height := 0,
      surfaces := [(1, { host := 2, width := 4, height := 1, palette := 0, pixels := 0 })],
      palettes := [], palette_hack := 0, heap := { base := 0x100, used := [] } }
    1 { host := 2, width := 4, height := 1, palette := 0, pixels := 0 }
    DDSURFACEDESC2.clear 0 rfl).1 rfl]
  rfl

/-- C9, counterexample: at a registered `0x10000 × 0x10000` surface with
a non-zero pixel address and the subsystem palette set — the claim's
"exactly when" condition — the `u32` pixel count wraps to `0`, so the
program pushes the *empty* array to `host.write_pixels` (with `DD_OK`),
not an expansion of each of the `width * height = 2^32` buffer
bytes. -/
theorem Unlock_overflow_counterexample :
    (Unlock mcBig 1 none).map (fun r => (r.1.pixelWrites, r.2.2))
      = some ([(5, [])], DD_OK)
      ∧ (0x10000 * 0x10000 * 1 : Nat) ≠ 0 := by
  constructor
  · rfl
  · decide

/-- C9 (amended): `Unlock` on a registered surface fills a non-null
rect with `(0, 0, width, height)`; exactly when both the surface's
pixel address is non-zero and a subsystem palette is set (and then the
buffer is in range and the palette registered — `view_n`/`unwrap`
abort otherwise), the `width * height * 1` pixel bytes — the count
taken as the wrapping `u32` product — are each expanded through the
palette to `(R, G, B, 255)` and pushed to `host.write_pixels`; the
call returns `DD_OK`. -/
theorem Unlock_rect_and_palette_push (mc : DDMachine) (this : Nat) (surf : Surface)
    (rect : Option RECT) (hs : mc.ddraw.surfaces.lookup this = some surf) :
    (∀ res : DDMachine × Option RECT × Nat, Unlock mc this rect = some res →
      res.2.1 = rect.map fun _ =>
        { left := 0, top := 0, right := surf.width, bottom := surf.height }) ∧
    (∀ palette : List PALETTEENTRY, surf.pixels ≠ 0 → mc.ddraw.palette_hack ≠ 0 →
      surf.pixels + wrap (wrap (surf.width * surf.height) * 1) ≤ mc.mem.length →
      mc.ddraw.palettes.lookup mc.ddraw.palette_hack = some palette →
      Unlock mc this rect = some
        ({ mc with pixelWrites := mc.pixelWrites ++
            [(surf.host,
              ((mc.mem.drop surf.pixels).take (wrap (wrap (surf.width * surf.height) * 1))).map
                fun i =>
                let p := palette.getD i { peRed := 0, peGreen := 0, peBlue := 0, peFlags := 0 }
                (p.peRed, p.peGreen, p.peBlue, 255))] },
          rect.map (fun _ =>
            { left := 0, top := 0, right := surf.width, bottom := surf.height }),
          DD_OK)) ∧
    (surf.pixels = 0 ∨ mc.ddraw.palette_hack = 0 →
      Unlock mc this rect = some
        (mc,
          rect.map (fun _ =>
            { left := 0, top := 0, right := surf.width, bottom := surf.height }),
          DD_OK)) := by
  refine ⟨?_, ?_, ?_⟩
  · intro res h
    unfold Unlock at h
    rw [hs] at h
    dsimp only at h
    split at h
    · split at h
      · split at h
        · cases h
        · cases Option.some.inj h
          rfl
      · cases h
    · cases Option.some.inj h
      rfl
  · intro palette hp hh hb hpal
    unfold Unlock
    rw [hs]
    dsimp only
    rw [if_pos ⟨hp, hh⟩, if_pos hb, hpal]
  · intro hor
    unfold Unlock
    rw [hs]
    dsimp only
    rw [if_neg (by tauto)]

/-- C9, witness: the spec's palette scenario — a 4×1 surface with
pixel bytes `[7, 7, 7, 7]`, a 256-entry palette whose entry 7 is
`(10, 20, 30)` registered under the subsystem palette handle 77:
`host.write_pixels` receives exactly four `(10, 20, 30, 255)` quads
and the rect comes back as the full surface. -/
theorem Unlock_rect_and_palette_push_witness :
    (Unlock mcScenario 1 (some { left := 3, top := 3, right := 3, bottom := 3 })).map
        (fun r => (r.1.pixelWrites, r.2.1, r.2.2))
      = some ([(5, [(10, 20, 30, 255), (10, 20, 30, 255), (10, 20, 30, 255),
            (10, 20, 30, 255)])],
          some { left := 0, top := 0, right := 4, bottom := 1 }, DD_OK) := by
  rw [(Unlock_rect_and_palette_push mcScenario 1 surfScenario
    (some { left := 3, top := 3, right := 3, bottom := 3 }) rfl).2.1
    specPalette (by decide) (by decide) (by decide) rfl]
  rfl

/-- C10: `Unlock` expands pixels through the subsystem-wide
`palette_hack` — set by the most recent `SetPalette` on any surface —
and not through the unlocked surface's own `palette` field: after
`SetPalette`, the subsystem palette is the argument just passed (and
the call returns `DD_OK`); when `palette_hack = 0`, `Unlock` pushes
nothing even if the surface's own `palette` field is non-zero; and when
`palette_hack` names a registered palette different from the surface's
own, the pixels are expanded through the `palette_hack` palette. -/
theorem Unlock_uses_subsystem_palette_hack :
    (∀ (st : DdrawState) (s2 pal : Nat) (surf2 : Surface),
      st.surfaces.lookup s2 = some surf2 →
      ∀ res : DdrawState × Nat, SetPalette st s2 pal = some res →
        res.1.palette_hack = pal ∧ res.2 = DD_OK) ∧
    (∀ (mc : DDMachine) (s1 : Nat) (surf1 : Surface) (rect : Option RECT),
      mc.ddraw.surfaces.lookup s1 = some surf1 →
      mc.ddraw.palette_hack = 0 → surf1.palette ≠ 0 →
      Unlock mc s1 rect = some
        (mc,
          rect.map (fun _ =>
            { left := 0, top := 0, right := surf1.width, bottom := surf1.height }),
          DD_OK)) ∧
    (∀ (mc : DDMachine) (s1 : Nat) (surf1 : Surface) (rect : Option RECT)
      (pal : List PALETTEENTRY),
      mc.ddraw.surfaces.lookup s1 = some surf1 →
      surf1.pixels ≠ 0 → mc.ddraw.palette_hack ≠ 0 →
      surf1.palette ≠ mc.ddraw.palette_hack →
      surf1.pixels + wrap (wrap (surf1.width * surf1.height) * 1) ≤ mc.mem.length →
      mc.ddraw.palettes.lookup mc.ddraw.palette_hack = some pal →
      Unlock mc s1 rect = some
        ({ mc with pixelWrites := mc.pixelWrites ++
            [(surf1.host,
              ((mc.mem.drop surf1.pixels).take (wrap (wrap (surf1.width * surf1.height) * 1))).map
                fun i =>
                let p := pal.getD i { peRed := 0, peGreen := 0, peBlue := 0, peFlags := 0 }
                (p.peRed, p.peGreen, p.peBlue, 255))] },
          rect.map (fun _ =>
            { left := 0, top := 0, right := surf1.width, bottom := surf1.height }),
          DD_OK)) := by
  refine ⟨?_, ?_, ?_⟩
  · intro st s2 pal surf2 hs res h
    unfold SetPalette at h
    rw [hs] at h
    dsimp only at h
    cases Option.some.inj h
    exact ⟨rfl, rfl⟩
  · intro mc s1 surf1 rect hs hhack _
    unfold Unlock
    rw [hs]
    dsimp only
    rw [if_neg (by simp [hhack])]
  · intro mc s1 surf1 rect pal hs hp hh _ hb hpal
    unfold Unlock
    rw [hs]
    dsimp only
    rw [if_pos ⟨hp, hh⟩, if_pos hb, hpal]

/-- C10, witness: surface 1 carries its own palette handle 99, but the
subsystem `palette_hack` is 77 — as set by `SetPalette` on surface 2,
whose effect on the subsystem state is checked first: `Unlock` on
surface 1 expands through palette 77's entries, yielding
`(1, 2, 3, 255)`, not through handle 99. -/
theorem Unlock_uses_subsystem_palette_hack_witness :
    ((SetPalette stTwoSurfaces 2 77).map fun r => (r.1.palette_hack, r.2))
        = some (77, DD_OK) ∧
    (Unlock mcHack77 1 none).map (fun r => (r.1.pixelWrites, r.2.2))
        = some ([(5, [(1, 2, 3, 255)])], DD_OK) := by
  constructor
  · have h := Unlock_uses_subsystem_palette_hack.1 stTwoSurfaces 2 77 surfSecond rfl
      (stTwoAfter, DD_OK) rfl
    simp only [show SetPalette stTwoSurfaces 2 77 = some (stTwoAfter, DD_OK) from rfl,
      Option.map_some']
    exact congrArg some (congrArg₂ Prod.mk h.1 h.2)
  · rw [Unlock_uses_subsystem_palette_hack.2.2 mcHack77 1 surfOwn99 none constPalette
      rfl (by decide) (by decide) (by decide) (by decide) rfl]
    rfl

end Retrowin32
